import Mathlib

/-!
# Verification of the spin-image-classification-demo pipeline

Shallow embedding of `src/src/lib.rs`: the `classify` pipeline
(model loading, image preprocessing, inference, label resolution),
the `get_label` lookup, and the HTTP handler
`handle_spin_image_classification_demo`.

Modelling conventions:
* `f32` scores are modelled by `F32`: either `F32.nan` (the only
  not-a-number relevant to the claims) or `F32.val q` with `q : ℚ`.
  `partial_cmp` on two non-NaN floats is a total comparison; with a NaN
  on either side it returns `none`, exactly as in Rust.
* Rust panics (`unwrap` on `None`, `expect` on a missing label line) are
  modelled explicitly: fallible scans return `Except String _` whose
  `error` constructor is the panic, and the end-to-end result type
  `Outcome` has a dedicated `panic` constructor.
* The embedded TensorFlow model, the image decoder (`image::load_from_memory`
  followed by `to_rgb8` and the triangle-filter `resize` to 224×224, which
  always yields a 224×224 buffer of 8-bit RGB samples) and the compiled
  model execution are opaque effectful collaborators; they are parameters
  of the pipeline (`Env`, `Model`), with their Rust result types mirrored
  (`Except String _`, error = `TractError` / `image::ImageError`).
* Byte buffers are `List Nat`, label files are `List String` (one entry
  per line of `labels.txt`), `usize`/indices are `Nat`, `f32` tensor
  entries are `ℚ`.
-/

namespace ImgClass

/-- Model of Rust `f32` as far as the claims need it: a rational value or NaN. -/
inductive F32 where
  | nan : F32
  | val : ℚ → F32
  deriving DecidableEq

/-- Model of `f32::partial_cmp`: `none` iff either side is NaN, otherwise the
total comparison of the two values. -/
def cmpF32 : F32 → F32 → Option Ordering
  | F32.val a, F32.val b =>
      some (if a < b then Ordering.lt else if b < a then Ordering.gt else Ordering.eq)
  | _, _ => none

/-- The comparator closure `|a, b| a.0.partial_cmp(&b.0).unwrap()` from
`classify`: compares the score components of two `(score, 1-based index)`
pairs, and panics (models `unwrap` on `None`) when the comparison is undefined. -/
def pairCmp (a b : F32 × Nat) : Except String Ordering :=
  match cmpF32 a.1 b.1 with
  | some o => Except.ok o
  | none => Except.error "called Option::unwrap on a None value"

/-- The folding part of Rust `Iterator::max_by` (`reduce` with
`cmp::max_by`): keep the accumulator only when the comparator says
`Greater`, otherwise move to the new element (so later elements win ties).
The comparator may panic. -/
def max_by_go (f : α → α → Except String Ordering) : α → List α → Except String α
  | acc, [] => Except.ok acc
  | acc, y :: ys =>
    match f acc y with
    | Except.error e => Except.error e
    | Except.ok o => max_by_go f (if o = Ordering.gt then acc else y) ys

/-- Rust `Iterator::max_by`: `none` on an empty iterator, otherwise the fold
of `max_by_go` seeded with the first element. -/
def max_by (f : α → α → Except String Ordering) : List α → Except String (Option α)
  | [] => Except.ok none
  | x :: xs => (max_by_go f x xs).map some

/-- The `best` scan of `classify`: zip the scores with `1..` (1-based class
indices) and take `max_by` with the `partial_cmp(..).unwrap()` comparator. -/
def best (scores : List F32) : Except String (Option (F32 × Nat)) :=
  max_by pairCmp (scores.zip (List.range' 1 scores.length))

/-- The tensor built by `Array4::from_shape_fn((1, 224, 224, 3), |(_, y, x, c)|
resized[(x as _, y as _)][c] as f32 / 255.0)`. `resized` is the 224×224 buffer
of 8-bit RGB samples produced by the resize step, indexed `(column, row)` as in
the `image` crate, each channel a `Fin 256` (a `u8`). Nested lists expose the
shape `(1, 224, 224, 3)` concretely. -/
def mkInputTensor (resized : Fin 224 → Fin 224 → Fin 3 → Fin 256) :
    List (List (List (List ℚ))) :=
  List.ofFn fun _ : Fin 1 =>
    List.ofFn fun y : Fin 224 =>
      List.ofFn fun x : Fin 224 =>
        List.ofFn fun c : Fin 3 => ((resized x y c : ℕ) : ℚ) / 255

/-- `type ClassificationResult = (String, f32)`. -/
def ClassificationResult := String × F32

/-- The `ClassificationError` enum of `lib.rs`. -/
inductive ClassificationError where
  | ModelError : String → ClassificationError
  | ImageError : String → ClassificationError
  | IoError : String → ClassificationError
  | Unknown : String → ClassificationError
  | Unclassified : ClassificationError
  deriving DecidableEq

/-- The compiled, runnable model (`into_runnable()` result). `run` models
`model.run(tvec!(image.into()))` followed by `result[0].to_array_view::<f32>()`
and flattening: from the input tensor to the flat score vector, failing with a
`TractError` message. -/
structure Model where
  run : List (List (List (List ℚ))) → Except String (List F32)

/-- The effectful collaborators of `classify`: loading and compiling the
embedded frozen graph (`tensorflow().model_for_read(..)...into_runnable()`,
failing with a `TractError`), and decoding + `to_rgb8` + resizing the input
bytes (`image::load_from_memory(&img)` fails with an `image::ImageError`;
`to_rgb8` and `resize` are infallible and always produce a 224×224 8-bit RGB
buffer). -/
structure Env where
  loadModel : Except String Model
  decode : List Nat → Except String (Fin 224 → Fin 224 → Fin 3 → Fin 256)

/-- Result of one `classify` call: a success, a typed error, or a panic
(process abort). -/
inductive Outcome where
  | success : String × F32 → Outcome
  | failure : ClassificationError → Outcome
  | panic : String → Outcome
  deriving DecidableEq

/-- `get_label(num)`: take line `num - 1` (0-based) of the embedded
`labels.txt`; a missing line is the `expect("cannot get prediction label")`
panic, modelled as the `error` case. (The `io::Error` branch of `lines()`
over an in-memory cursor is unreachable and not modelled.) -/
def get_label (labels : List String) (num : Nat) : Except String String :=
  match labels.get? (num - 1) with
  | none => Except.error "cannot get prediction label"
  | some l => Except.ok l

/-- `classify(img)`: load the model, decode/resize the image, build the input
tensor, run the model, scan for the maximum score, and resolve the label.
`From<TractError>` maps model failures to `ModelError`,
`From<image::ImageError>` maps decode failures to `ImageError`; an empty scan
is `Unclassified`; comparator `unwrap` and `get_label` `expect` are panics. -/
def classify (env : Env) (labels : List String) (img : List Nat) : Outcome :=
  match env.loadModel with
  | Except.error e => Outcome.failure (ClassificationError.ModelError e)
  | Except.ok model =>
    match env.decode img with
    | Except.error e => Outcome.failure (ClassificationError.ImageError e)
    | Except.ok resized =>
      match model.run (mkInputTensor resized) with
      | Except.error e => Outcome.failure (ClassificationError.ModelError e)
      | Except.ok scores =>
        match best scores with
        | Except.error msg => Outcome.panic msg
        | Except.ok none => Outcome.failure ClassificationError.Unclassified
        | Except.ok (some (probability, cls)) =>
          match get_label labels cls with
          | Except.error msg => Outcome.panic msg
          | Except.ok label => Outcome.success (label, probability)

/-- `q * 10000` rounded to the nearest integer, ties to even, as Rust float
formatting does; computed on the numerator and denominator directly. -/
def roundHalfEven4 (q : ℚ) : ℤ :=
  let a : ℤ := q.num * 10000
  let b : ℤ := (q.den : ℤ)
  let f : ℤ := a.fdiv b
  let r : ℤ := a - f * b
  if 2 * r < b then f
  else if b < 2 * r then f + 1
  else if f % 2 = 0 then f else f + 1

/-- Left-pad a number below 10000 with zeros to four digits. -/
def pad4 (n : Nat) : String :=
  if n < 10 then "000" ++ toString n
  else if n < 100 then "00" ++ toString n
  else if n < 1000 then "0" ++ toString n
  else toString n

/-- `format!("{:.4}", q)` for a finite value: fixed-point with exactly four
fractional digits. -/
def fmtFixed4 (q : ℚ) : String :=
  let n : ℤ := roundHalfEven4 q
  let sign : String := if n < 0 then "-" else ""
  let a : ℕ := n.natAbs
  sign ++ toString (a / 10000) ++ "." ++ pad4 (a % 10000)

/-- `format!("{:.4}", p)` on the `f32` model. -/
def fmt4 : F32 → String
  | F32.nan => "NaN"
  | F32.val q => fmtFixed4 q

/-- The Spin HTTP handler: empty body is rejected with a 400 before `classify`
runs; a classification error becomes a 500 with a fixed diagnostic body; a
success becomes a 200 whose body is the literal
`{"Predicted label": "<label>", "Probability": <4-decimal-float>}`.
A panic inside `classify` aborts the request (`Except.error`). The result is
the pair (status, body). -/
def handle_spin_image_classification_demo (env : Env) (labels : List String)
    (body : List Nat) : Except String (Nat × String) :=
  if body.isEmpty then
    Except.ok (400, "No image data received.")
  else
    match classify env labels body with
    | Outcome.panic msg => Except.error msg
    | Outcome.failure _ => Except.ok (500, "Error during classification")
    | Outcome.success (label, probability) =>
      Except.ok (200,
        "\x7b\"Predicted label\": \"" ++ label ++ "\", \"Probability\": "
          ++ fmt4 probability ++ "\x7d")

/-- `true` iff the computation panicked. -/
def isPanic : Except String α → Bool
  | Except.error _ => true
  | Except.ok _ => false

/-- The NaN-free shadow of `max_by_go pairCmp` on `(score, index)` pairs:
keep the accumulator exactly when the new element's score is strictly below
it, i.e. replace it on ties (later elements win). -/
def pureGo : (ℚ × Nat) → List (ℚ × Nat) → ℚ × Nat
  | acc, [] => acc
  | acc, y :: ys => pureGo (if y.1 < acc.1 then acc else y) ys

/-- The `ClassificationError` variants that some code path of `classify`
actually constructs. -/
def reachableVariant : ClassificationError → Bool
  | ClassificationError.ModelError _ => true
  | ClassificationError.ImageError _ => true
  | ClassificationError.Unclassified => true
  | ClassificationError.IoError _ => false
  | ClassificationError.Unknown _ => false

/-- A concrete environment whose model run returns `r` and whose image
decode returns `d`, used to instantiate theorems with hypotheses. -/
def envOf (r : Except String (List F32))
    (d : Except String (Fin 224 → Fin 224 → Fin 3 → Fin 256)) : Env :=
  { loadModel := Except.ok { run := fun _ => r }, decode := fun _ => d }

/-- The all-black 224×224 RGB buffer. -/
def constGrid : Fin 224 → Fin 224 → Fin 3 → Fin 256 := fun _ _ _ => 0

end ImgClass

namespace ImgClass

theorem isPanic_map (f : α → β) (e : Except String α) :
    isPanic (e.map f) = isPanic e := by
  cases e <;> rfl

theorem zip_range'_get? (l : List α) (s k : Nat) :
    (l.zip (List.range' s l.length)).get? k = (l.get? k).map fun a => (a, s + k) := by
  induction l generalizing s k with
  | nil => simp
  | cons a l ih =>
    cases k with
    | zero => simp [List.range'_succ]
    | succ k =>
      simp only [List.length_cons, List.range'_succ, List.zip_cons_cons,
        List.get?_cons_succ]
      rw [ih]
      have hsk : s + 1 + k = s + (k + 1) := by omega
      rw [hsk]

theorem map_val_zip (l : List ℚ) (r : List Nat) :
    (l.map F32.val).zip r = (l.zip r).map fun p => (F32.val p.1, p.2) := by
  induction l generalizing r with
  | nil => simp
  | cons a l ih =>
    cases r with
    | nil => simp
    | cons b r => simp [ih]

theorem get?_ofFn_fin {n : ℕ} (f : Fin n → α) (i : Fin n) :
    (List.ofFn f).get? i = some (f i) := by
  rw [List.get?_ofFn, List.ofFnNthVal, dif_pos i.isLt, Fin.eta]

/-- C2: for every decodable input image of any original resolution, the
preprocessing stage produces an input tensor of exactly shape (1, 224, 224, 3)
whose element at (batch, y, x, c) equals the resized pixel's channel value at
row y, column x, channel c (RGB order) divided by 255, and every element lies
in [0, 1].  (`resized` ranges over every possible output of the resize step:
a 224×224 buffer of 8-bit RGB samples indexed (column, row).) -/
theorem classify_input_tensor_spec (resized : Fin 224 → Fin 224 → Fin 3 → Fin 256) :
    (mkInputTensor resized).length = 1 ∧
    (mkInputTensor resized).map List.length = [224] ∧
    (mkInputTensor resized).map (List.map List.length) = [List.replicate 224 224] ∧
    (mkInputTensor resized).map (List.map (List.map List.length)) =
      [List.replicate 224 (List.replicate 224 3)] ∧
    ∀ (b : Fin 1) (y : Fin 224) (x : Fin 224) (c : Fin 3),
      (((((mkInputTensor resized).get? b).bind fun p => p.get? y).bind
            fun r => r.get? x).bind fun px => px.get? c)
          = some (((resized x y c : ℕ) : ℚ) / 255) ∧
      0 ≤ ((resized x y c : ℕ) : ℚ) / 255 ∧ ((resized x y c : ℕ) : ℚ) / 255 ≤ 1 := by
  refine ⟨by simp only [mkInputTensor, List.length_ofFn], ?_, ?_, ?_, ?_⟩
  · simp only [mkInputTensor, List.map_cons, List.map_nil, List.map_ofFn,
      Function.comp_def, List.length_ofFn, List.ofFn_const, List.replicate_one]
  · simp only [mkInputTensor, List.map_cons, List.map_nil, List.map_ofFn,
      Function.comp_def, List.length_ofFn, List.ofFn_const, List.replicate_one]
  · simp only [mkInputTensor, List.map_cons, List.map_nil, List.map_ofFn,
      Function.comp_def, List.length_ofFn, List.ofFn_const, List.replicate_one]
  · intro b y x c
    refine ⟨?_, ?_, ?_⟩
    · simp only [mkInputTensor, get?_ofFn_fin, Option.some_bind]
    · positivity
    · rw [div_le_one (by norm_num)]
      have h255 : (resized x y c : ℕ) ≤ 255 := Nat.lt_succ_iff.mp (resized x y c).isLt
      exact_mod_cast h255

/-- C3: if the model's output score vector is empty, `classify` returns the
`Unclassified` error variant (no crash, no label lookup). -/
theorem classify_empty_scores_unclassified (env : Env) (labels : List String)
    (img : List Nat) (model : Model) (resized : Fin 224 → Fin 224 → Fin 3 → Fin 256)
    (h1 : env.loadModel = Except.ok model) (h2 : env.decode img = Except.ok resized)
    (h3 : model.run (mkInputTensor resized) = Except.ok []) :
    classify env labels img = Outcome.failure ClassificationError.Unclassified := by
  simp [classify, h1, h2, h3, best, max_by]

theorem classify_empty_scores_unclassified_witness :
    classify (envOf (Except.ok []) (Except.ok constGrid)) [] [7] =
      Outcome.failure ClassificationError.Unclassified :=
  classify_empty_scores_unclassified _ _ _ _ constGrid rfl rfl rfl

/-- C4: for every input byte buffer that the image decoder rejects, `classify`
fails with the `ImageError` variant (given that loading the embedded model
succeeded, as it always does for the fixed valid embedded graph) — never with
`ModelError` and never with silent success. -/
theorem classify_undecodable_image_error (env : Env) (labels : List String)
    (img : List Nat) (model : Model) (e : String)
    (h1 : env.loadModel = Except.ok model) (h2 : env.decode img = Except.error e) :
    classify env labels img = Outcome.failure (ClassificationError.ImageError e) := by
  simp [classify, h1, h2]

theorem classify_undecodable_image_error_witness :
    classify (envOf (Except.ok []) (Except.error "bad image")) [] [7] =
      Outcome.failure (ClassificationError.ImageError "bad image") :=
  classify_undecodable_image_error _ _ _ _ "bad image" rfl rfl

/-- C5: when the winning 1-based class index exceeds the number of lines of
the label table, the `get_label` lookup is the fatal
`expect("cannot get prediction label")` panic: the pipeline aborts and no
wrapped or arbitrary label is returned. -/
theorem classify_label_overflow_fatal (env : Env) (labels : List String)
    (img : List Nat) (model : Model) (resized : Fin 224 → Fin 224 → Fin 3 → Fin 256)
    (scores : List F32) (p : F32) (n : Nat)
    (h1 : env.loadModel = Except.ok model) (h2 : env.decode img = Except.ok resized)
    (h3 : model.run (mkInputTensor resized) = Except.ok scores)
    (h4 : best scores = Except.ok (some (p, n)))
    (h5 : labels.length < n) :
    classify env labels img = Outcome.panic "cannot get prediction label" := by
  have hnone : labels[n - 1]? = none := by
    rw [List.getElem?_eq_none_iff]
    omega
  simp [classify, h1, h2, h3, h4, get_label, hnone]

theorem classify_label_overflow_fatal_witness :
    classify (envOf (Except.ok [F32.val (mkRat 1 2), F32.val (mkRat 3 4)])
        (Except.ok constGrid)) ["tench"] [7] =
      Outcome.panic "cannot get prediction label" :=
  classify_label_overflow_fatal _ _ _ _ constGrid _ (F32.val (mkRat 3 4)) 2
    rfl rfl rfl rfl (by decide)

/-- C7: the HTTP handler rejects an empty request body with status 400 and
body "No image data received.", and the response is independent of the whole
classification pipeline — `classify` is never invoked on empty bytes. -/
theorem handler_rejects_empty_body (env : Env) (labels : List String) :
    handle_spin_image_classification_demo env labels [] =
      Except.ok (400, "No image data received.") ∧
    ∀ (env2 : Env) (labels2 : List String),
      handle_spin_image_classification_demo env labels [] =
        handle_spin_image_classification_demo env2 labels2 [] := by
  exact ⟨rfl, fun _ _ => rfl⟩

/-- C8: `classify` is a deterministic function of the model environment, the
label table and the input bytes: two invocations on the same inputs yield
identical results. -/
theorem classify_deterministic (env : Env) (labels : List String) (img : List Nat)
    (r1 r2 : Outcome) (h1 : r1 = classify env labels img)
    (h2 : r2 = classify env labels img) : r1 = r2 :=
  h1.trans h2.symm

theorem classify_deterministic_witness :
    classify (envOf (Except.ok []) (Except.ok constGrid)) ["a"] [1] =
      classify (envOf (Except.ok []) (Except.ok constGrid)) ["a"] [1] :=
  classify_deterministic _ _ _ _ _ rfl rfl

/-- C9: every error `classify` can return is `ModelError`, `ImageError` or
`Unclassified`; the `IoError` and `Unknown` variants are never constructed. -/
theorem classify_error_variants_reachable (env : Env) (labels : List String)
    (img : List Nat) (e : ClassificationError)
    (h : classify env labels img = Outcome.failure e) :
    reachableVariant e = true := by
  unfold classify at h
  repeat' split at h
  all_goals
    first
    | exact Outcome.noConfusion h
    | (injection h with h2; subst h2; rfl)

theorem classify_error_variants_reachable_witness :
    reachableVariant (ClassificationError.ImageError "bad image") = true :=
  classify_error_variants_reachable (envOf (Except.ok []) (Except.error "bad image"))
    [] [7] _ rfl


/-- C6: on every successful classification the HTTP handler answers 200 with
the literal body `{"Predicted label": "<label>", "Probability": <4-decimal>}`,
where the formatted probability is the raw maximum score produced by the
`best` scan — no softmax or other normalization is applied between the scan
and the response. -/
theorem handler_success_body_format (env : Env) (labels : List String) (img : List Nat)
    (model : Model) (resized : Fin 224 → Fin 224 → Fin 3 → Fin 256)
    (scores : List F32) (p : F32) (n : Nat) (label : String)
    (hne : img ≠ [])
    (h1 : env.loadModel = Except.ok model) (h2 : env.decode img = Except.ok resized)
    (h3 : model.run (mkInputTensor resized) = Except.ok scores)
    (h4 : best scores = Except.ok (some (p, n)))
    (h5 : get_label labels n = Except.ok label) :
    handle_spin_image_classification_demo env labels img =
      Except.ok (200, "\x7b\"Predicted label\": \"" ++ label ++ "\", \"Probability\": "
        ++ fmt4 p ++ "\x7d") := by
  have hc : classify env labels img = Outcome.success (label, p) := by
    simp [classify, h1, h2, h3, h4, h5]
  have hImg : img.isEmpty = false := by
    cases img with
    | nil => exact absurd rfl hne
    | cons i is => rfl
  simp [handle_spin_image_classification_demo, hImg, hc]

theorem handler_success_body_format_witness :
    handle_spin_image_classification_demo
        (envOf (Except.ok [F32.val (mkRat 7 10)]) (Except.ok constGrid)) ["goldfish"] [1] =
      Except.ok (200, "\x7b\"Predicted label\": \"goldfish\", \"Probability\": 0.7000\x7d") := by
  have h := handler_success_body_format
    (envOf (Except.ok [F32.val (mkRat 7 10)]) (Except.ok constGrid)) ["goldfish"] [1]
    { run := fun _ => Except.ok [F32.val (mkRat 7 10)] } constGrid
    [F32.val (mkRat 7 10)] (F32.val (mkRat 7 10)) 1 "goldfish"
    (by decide) rfl rfl rfl rfl rfl
  exact h.trans rfl

theorem max_by_go_val (acc : ℚ × Nat) (ys : List (ℚ × Nat)) :
    max_by_go pairCmp (F32.val acc.1, acc.2) (ys.map fun p => (F32.val p.1, p.2)) =
      Except.ok (F32.val (pureGo acc ys).1, (pureGo acc ys).2) := by
  induction ys generalizing acc with
  | nil => rfl
  | cons y ys ih =>
    simp only [List.map_cons, max_by_go, pairCmp, cmpF32, pureGo]
    by_cases h1 : acc.1 < y.1
    · have h2 : ¬ y.1 < acc.1 := lt_asymm h1
      simp only [if_pos h1, if_neg h2]
      simpa using ih y
    · by_cases h2 : y.1 < acc.1
      · simp only [if_neg h1, if_pos h2]
        simpa using ih acc
      · simp only [if_neg h1, if_neg h2]
        simpa using ih y

theorem pureGo_max (ys : List (ℚ × Nat)) (acc : ℚ × Nat) :
    acc.1 ≤ (pureGo acc ys).1 ∧ ∀ p ∈ ys, p.1 ≤ (pureGo acc ys).1 := by
  induction ys generalizing acc with
  | nil => exact ⟨le_refl _, by simp⟩
  | cons y ys ih =>
    simp only [pureGo]
    have hstep : acc.1 ≤ (if y.1 < acc.1 then acc else y).1 ∧
        y.1 ≤ (if y.1 < acc.1 then acc else y).1 := by
      by_cases h : y.1 < acc.1
      · rw [if_pos h]; exact ⟨le_refl _, le_of_lt h⟩
      · rw [if_neg h]; exact ⟨le_of_not_lt h, le_refl _⟩
    obtain ⟨ih1, ih2⟩ := ih (if y.1 < acc.1 then acc else y)
    refine ⟨le_trans hstep.1 ih1, ?_⟩
    intro p hp
    rcases List.mem_cons.mp hp with rfl | hp
    · exact le_trans hstep.2 ih1
    · exact ih2 p hp

theorem pureGo_origin (ys : List (ℚ × Nat)) (acc : ℚ × Nat) :
    (pureGo acc ys = acc ∧ ∀ p ∈ ys, p.1 < acc.1) ∨
    (∃ k, ys.get? k = some (pureGo acc ys) ∧
      ∀ l p, k < l → ys.get? l = some p → p.1 < (pureGo acc ys).1) := by
  induction ys generalizing acc with
  | nil => exact Or.inl ⟨rfl, by simp⟩
  | cons y ys ih =>
    simp only [pureGo]
    by_cases h : y.1 < acc.1
    · rw [if_pos h]
      rcases ih acc with ⟨heq, hall⟩ | ⟨k, hk, haft⟩
      · left
        refine ⟨heq, ?_⟩
        intro p hp
        rcases List.mem_cons.mp hp with rfl | hp
        · exact h
        · exact hall p hp
      · right
        refine ⟨k + 1, by simpa using hk, ?_⟩
        intro l p hl hlp
        cases l with
        | zero => omega
        | succ l => exact haft l p (by omega) (by simpa using hlp)
    · rw [if_neg h]
      rcases ih y with ⟨heq, hall⟩ | ⟨k, hk, haft⟩
      · right
        refine ⟨0, by simp [heq], ?_⟩
        intro l p hl hlp
        cases l with
        | zero => omega
        | succ l =>
          have hp : p ∈ ys := List.get?_mem (by simpa using hlp)
          rw [heq]
          exact hall p hp
      · right
        refine ⟨k + 1, by simpa using hk, ?_⟩
        intro l p hl hlp
        cases l with
        | zero => omega
        | succ l => exact haft l p (by omega) (by simpa using hlp)


/-- C1 counterexample: on ScoreVector = [0.9, 0.9, 0.3] the scan of `classify`
selects the pair with 1-based index 2 (the second element), not index 1. -/
theorem best_tiebreak_counterexample :
    best ([mkRat 9 10, mkRat 9 10, mkRat 3 10].map F32.val) =
      Except.ok (some (F32.val (mkRat 9 10), 2)) ∧ (2 : Nat) ≠ 1 :=
  ⟨rfl, by decide⟩

/-- C1 (amended): when multiple elements share the maximum score, the scan of
`classify` selects the last occurrence (highest index), because `max_by`
keeps the accumulator only on a strict greater-than comparison: whenever the
scan returns score `m` with 1-based index `i`, then `m` sits at 0-based
position `i - 1`, every score is at most `m`, and no strictly later position
holds `m` again. -/
theorem best_tiebreak_last_occurrence (qs : List ℚ) (m : ℚ) (i : Nat)
    (h : best (qs.map F32.val) = Except.ok (some (F32.val m, i))) :
    qs.get? (i - 1) = some m ∧ (∀ q ∈ qs, q ≤ m) ∧ ∀ j, i ≤ j → qs.get? j ≠ some m := by
  cases qs with
  | nil => exact absurd h (by simp [best, max_by])
  | cons q qs =>
    have hzip : ((q :: qs).map F32.val).zip
          (List.range' 1 ((q :: qs).map F32.val).length) =
        (F32.val q, 1) ::
          ((qs.zip (List.range' 2 qs.length)).map fun p => (F32.val p.1, p.2)) := by
      simp [List.range'_succ, map_val_zip]
    rw [best, hzip, max_by] at h
    rw [show ((F32.val q, 1) : F32 × Nat) = (F32.val (q, 1).1, (q, 1).2) from rfl,
      max_by_go_val (q, 1) (qs.zip (List.range' 2 qs.length))] at h
    simp only [Except.map, Except.ok.injEq, Option.some.injEq, Prod.mk.injEq,
      F32.val.injEq] at h
    obtain ⟨hm, hi⟩ := h
    have hget : ∀ k, (qs.zip (List.range' 2 qs.length)).get? k =
        (qs.get? k).map fun a => (a, 2 + k) := fun k => zip_range'_get? qs 2 k
    have hmax := pureGo_max (qs.zip (List.range' 2 qs.length)) (q, 1)
    have horig := pureGo_origin (qs.zip (List.range' 2 qs.length)) (q, 1)
    refine ⟨?_, ?_, ?_⟩
    · rcases horig with ⟨heq, hall⟩ | ⟨k, hk, haft⟩
      · rw [heq] at hm hi
        rw [← hi, ← hm]
        rfl
      · rw [hget k] at hk
        cases hqk : qs.get? k with
        | none => rw [hqk] at hk; exact absurd hk (by simp)
        | some a =>
          rw [hqk] at hk
          simp only [Option.map_some', Option.some.injEq] at hk
          have ha : a = m := by
            have := congrArg Prod.fst hk
            simpa [hm] using this
          have hki : 2 + k = i := by
            have := congrArg Prod.snd hk
            simpa [hi] using this
          have hi1 : i - 1 = k + 1 := by omega
          rw [hi1, List.get?_cons_succ, hqk, ha]
    · intro q' hq'
      rcases List.mem_cons.mp hq' with rfl | hq'
      · exact hm ▸ hmax.1
      · obtain ⟨k, hk⟩ := List.mem_iff_get?.mp hq'
        have hmem : (q', 2 + k) ∈ qs.zip (List.range' 2 qs.length) :=
          List.get?_mem (by rw [hget k, hk]; rfl)
        exact hm ▸ hmax.2 _ hmem
    · intro j hj hcontra
      rcases horig with ⟨heq, hall⟩ | ⟨k, hk, haft⟩
      · have hi1 : i = 1 := by rw [heq] at hi; exact hi.symm
        have hmq : m = q := by rw [heq] at hm; exact hm.symm
        cases j with
        | zero => omega
        | succ j =>
          rw [List.get?_cons_succ] at hcontra
          have hmem : (m, 2 + j) ∈ qs.zip (List.range' 2 qs.length) :=
            List.get?_mem (by rw [hget j, hcontra]; rfl)
          have := hall _ hmem
          simp only at this
          rw [hmq] at this
          exact absurd this (lt_irrefl q)
      · have hki : i = 2 + k := by
          rw [hget k] at hk
          cases hqk : qs.get? k with
          | none => rw [hqk] at hk; exact absurd hk (by simp)
          | some a =>
            rw [hqk] at hk
            simp only [Option.map_some', Option.some.injEq] at hk
            have h2k := congrArg Prod.snd hk
            simp only [hi] at h2k
            exact h2k.symm
        cases j with
        | zero => omega
        | succ j =>
          rw [List.get?_cons_succ] at hcontra
          have hys : (qs.zip (List.range' 2 qs.length)).get? j = some (m, 2 + j) := by
            rw [hget j, hcontra]; rfl
          have := haft j (m, 2 + j) (by omega) hys
          rw [hm] at this
          exact absurd this (lt_irrefl m)

theorem best_tiebreak_last_occurrence_witness :
    [mkRat 9 10, mkRat 9 10, mkRat 3 10].get? (2 - 1) = some (mkRat 9 10) :=
  (best_tiebreak_last_occurrence [mkRat 9 10, mkRat 9 10, mkRat 3 10]
    (mkRat 9 10) 2 rfl).1

theorem ne_nan_val (x : F32) (h : x ≠ F32.nan) : ∃ a, x = F32.val a := by
  cases x with
  | nan => exact absurd rfl h
  | val a => exact ⟨a, rfl⟩

theorem max_by_go_total (ys : List (F32 × Nat)) :
    ∀ acc : F32 × Nat, acc.1 ≠ F32.nan → (∀ p ∈ ys, p.1 ≠ F32.nan) →
      isPanic (max_by_go pairCmp acc ys) = false := by
  induction ys with
  | nil => intro acc _ _; rfl
  | cons y ys ih =>
    intro acc hacc hys
    obtain ⟨a, ha⟩ := ne_nan_val acc.1 hacc
    obtain ⟨b, hb⟩ := ne_nan_val y.1 (hys y (List.mem_cons_self _ _))
    simp only [max_by_go, pairCmp, ha, hb, cmpF32]
    apply ih
    · by_cases hc : (if a < b then Ordering.lt
          else if b < a then Ordering.gt else Ordering.eq) = Ordering.gt
      · rw [if_pos hc]; exact hacc
      · rw [if_neg hc, hb]; intro hcon; exact F32.noConfusion hcon
    · exact fun p hp => hys p (List.mem_cons_of_mem _ hp)

theorem max_by_go_nan_panics (ys : List (F32 × Nat)) :
    ∀ acc : F32 × Nat,
      ((acc.1 = F32.nan ∧ ys ≠ []) ∨ ∃ p ∈ ys, p.1 = F32.nan) →
      isPanic (max_by_go pairCmp acc ys) = true := by
  induction ys with
  | nil =>
    intro acc h
    rcases h with ⟨_, hne⟩ | ⟨p, hp, _⟩
    · exact absurd rfl hne
    · exact absurd hp (List.not_mem_nil p)
  | cons y ys ih =>
    intro acc h
    by_cases hacc : acc.1 = F32.nan
    · have hcmp : cmpF32 acc.1 y.1 = none := by rw [hacc]; rfl
      simp only [max_by_go, pairCmp, hcmp]
      rfl
    · by_cases hy : y.1 = F32.nan
      · have hcmp : cmpF32 acc.1 y.1 = none := by
          rw [hy]; cases acc.1 <;> rfl
        simp only [max_by_go, pairCmp, hcmp]
        rfl
      · have hmem : ∃ p ∈ ys, p.1 = F32.nan := by
          rcases h with ⟨hn, _⟩ | ⟨p, hp, hpn⟩
          · exact absurd hn hacc
          · rcases List.mem_cons.mp hp with rfl | hp2
            · exact absurd hpn hy
            · exact ⟨p, hp2, hpn⟩
        obtain ⟨a, ha⟩ := ne_nan_val acc.1 hacc
        obtain ⟨b, hb⟩ := ne_nan_val y.1 hy
        simp only [max_by_go, pairCmp, ha, hb, cmpF32]
        exact ih _ (Or.inr hmem)

/-- C10 counterexample: the singleton ScoreVector [NaN] contains a NaN, yet
the scan does not panic — the comparator is never invoked on a one-element
iterator, and the NaN pair itself is returned as the maximum. -/
theorem best_nan_singleton_no_panic :
    F32.nan ∈ [F32.nan] ∧ best [F32.nan] = Except.ok (some (F32.nan, 1)) :=
  ⟨List.mem_cons_self _ _, rfl⟩

/-- C10 (amended): the maximum-score scan panics on the comparator
`partial_cmp(..).unwrap()` exactly when a NaN meets a comparison: if the
ScoreVector has at least two elements and contains a NaN the scan panics,
and if it contains no NaN the scan never panics; a singleton [NaN] is
returned without panic. -/
theorem best_nan_behavior (scores : List F32) :
    (F32.nan ∈ scores → 2 ≤ scores.length → isPanic (best scores) = true) ∧
    (F32.nan ∉ scores → isPanic (best scores) = false) := by
  constructor
  · intro hmem hlen
    cases scores with
    | nil => exact absurd hmem (List.not_mem_nil _)
    | cons x xs =>
      rw [best]
      have hz : (x :: xs).zip (List.range' 1 (x :: xs).length) =
          (x, 1) :: xs.zip (List.range' 2 xs.length) := by
        simp [List.range'_succ]
      rw [hz, max_by, isPanic_map]
      rcases List.mem_cons.mp hmem with rfl | hx
      · apply max_by_go_nan_panics
        left
        refine ⟨rfl, ?_⟩
        cases xs with
        | nil => rw [List.length_cons] at hlen; exact absurd hlen (by simp)
        | cons z zs => simp [List.range'_succ]
      · apply max_by_go_nan_panics
        right
        obtain ⟨k, hk⟩ := List.mem_iff_get?.mp hx
        refine ⟨(F32.nan, 2 + k), ?_, rfl⟩
        exact List.get?_mem (by rw [zip_range'_get? xs 2 k, hk]; rfl)
  · intro hnm
    cases scores with
    | nil => rfl
    | cons x xs =>
      rw [best]
      have hz : (x :: xs).zip (List.range' 1 (x :: xs).length) =
          (x, 1) :: xs.zip (List.range' 2 xs.length) := by
        simp [List.range'_succ]
      rw [hz, max_by, isPanic_map]
      apply max_by_go_total
      · exact fun hcon => hnm (hcon ▸ List.mem_cons_self _ _)
      · intro p hp
        obtain ⟨p1, p2⟩ := p
        have hp1 : p1 ∈ xs := (List.of_mem_zip hp).1
        exact fun hcon => hnm (List.mem_cons_of_mem _ (hcon ▸ hp1))

theorem best_nan_behavior_witness :
    isPanic (best [F32.nan, F32.val 0]) = true ∧ isPanic (best [F32.val 1]) = false :=
  ⟨(best_nan_behavior [F32.nan, F32.val 0]).1 (by decide) (by decide),
   (best_nan_behavior [F32.val 1]).2 (by decide)⟩

end ImgClass
